import Mathlib

/-!
A shallow embedding of the turn-engine of the gallerbench repository
(`src/gameLoop.ts`, the shared types in `src/unnamed/part_002`, and the
shipped guess-the-number game in `src/unnamed/part_005`), together with
theorems settling the frozen claims about it.

Model participants (`LanguageModel.complete`) are embedded as deterministic
functions from a conversation to the reply message; the `while` loops of the
engine are embedded with an explicit fuel argument (the loop body itself is a
pure step function translated line by line from the source).  Each loop also
emits a trace of observable events (prompts pushed, replies requested, state
updates) so that properties such as "seat 1 is never prompted" are statements
about the trace.
-/

set_option maxRecDepth 4000

namespace Gallerbench

/-- `ChatMessage` from `models.ts`: a role tag and text content. -/
structure ChatMessage where
  role : String
  content : String
deriving DecidableEq, Repr

/-- A conversation: the ordered list of messages sent so far. -/
abbrev Conversation := List ChatMessage

/-- `GameStatus` from the shared types (`src/unnamed/part_002`). -/
inductive GameStatus where
  | Win
  | Loss
  | Draw
  | Ongoing
deriving DecidableEq, Repr

/-- A language-model participant, embedded as a deterministic completion
function from the conversation so far to the produced reply message
(`LanguageModel.complete` in `models.ts`; backend options do not influence
any property proved here and are dropped). -/
structure LanguageModel where
  complete : Conversation → ChatMessage

/-- The TypeScript type `string | ((state: GameState) => string)` used for
prompts and for `answerParserPrompt` in the shared types. -/
inductive PromptSpec (σ : Type) where
  | str : String → PromptSpec σ
  | fn : (σ → String) → PromptSpec σ

/-- Resolving a prompt against the current state: a literal string is
returned as is, a function is applied (`typeof p === "function"`). -/
def PromptSpec.resolve {σ : Type} : PromptSpec σ → σ → String
  | .str s, _ => s
  | .fn f, st => f st

/-- JavaScript truthiness of an optional `string | function | null`
value, as tested by `if (game.answerParserPrompt)`: absent/null and the
empty string are falsy, every other string and every function is truthy. -/
def PromptSpec.truthy {σ : Type} : Option (PromptSpec σ) → Bool
  | none => false
  | some (.str s) => !s.isEmpty
  | some (.fn _) => true

/-- The single-participant `Game` contract (`src/unnamed/part_002`). -/
structure Game (σ : Type) (ω : Type) where
  name : String := ""
  promptsFirst : PromptSpec σ
  promptsTurn : PromptSpec σ
  evaluateStatus : σ → GameStatus
  answerParserPrompt : Option (PromptSpec σ) := none
  version : Nat := 1
  initializeState : ω → σ
  updateState : σ → String → σ

/-- Multiplayer prompt type: `string | ((state, currentPlayer) => string)`. -/
inductive MPromptSpec (σ : Type) where
  | str : String → MPromptSpec σ
  | fn : (σ → Nat → String) → MPromptSpec σ

/-- Resolving a multiplayer prompt against state and acting player. -/
def MPromptSpec.resolve {σ : Type} : MPromptSpec σ → σ → Nat → String
  | .str s, _, _ => s
  | .fn f, st, p => f st p

/-- The `MultiplayerGame` contract (`src/unnamed/part_002`): `players` is a
fixed count or `"dynamic"` (embedded as `none`), prompts take the acting
player, `updateState` takes the acting player, `shouldSkip` is optional,
and `winner` maps the final state to a seat number. -/
structure MultiplayerGame (σ : Type) (ω : Type) where
  name : String := ""
  players : Option Nat
  promptsFirst : MPromptSpec σ
  promptsTurn : MPromptSpec σ
  evaluateStatus : σ → GameStatus
  answerParserPrompt : Option (PromptSpec σ) := none
  version : Nat := 1
  initializeState : ω → σ
  updateState : σ → String → Nat → σ
  shouldSkip : Option (σ → Nat → Bool) := none
  winner : σ → Int

/-- `getParsedResponse` (`gameLoop.ts` lines 52–65): send the answer-parser
instruction as a system message and the raw output as a user message to the
fixed auxiliary participant (the `GPT-4o` registry entry, embedded as the
`aux` argument), and return the trimmed reply content. -/
def getParsedResponse (aux : LanguageModel) (answerParser : String)
    (input : String) : String :=
  (aux.complete [⟨"system", answerParser⟩, ⟨"user", input⟩]).content.trim

/-- `parseAnswer` (`gameLoop.ts` lines 72–90): when `answerParserPrompt` is
truthy, resolve it (call it on the state when it is a function) and delegate
to `getParsedResponse`; otherwise return the raw answer. -/
def parseAnswer {σ : Type} (aux : LanguageModel)
    (answerParserPrompt : Option (PromptSpec σ)) (state : σ)
    (rawAnswer : String) : String :=
  match answerParserPrompt with
  | some (.str s) =>
      if s.isEmpty then rawAnswer else getParsedResponse aux s rawAnswer
  | some (.fn f) => getParsedResponse aux (f state) rawAnswer
  | none => rawAnswer

/-! ### Single-participant loop (`gameLoop`, lines 105–181) -/

/-- The mutable locals of `gameLoop`: the accumulated chat, the game state,
and the most recent `evaluateStatus` result. -/
structure SPLoop (σ : Type) where
  chat : Conversation
  state : σ
  status : GameStatus

/-- Observable events of one single-participant turn. -/
inductive SPEvent where
  | prompted : String → SPEvent
  | replied : ChatMessage → SPEvent
  | updated : String → SPEvent
deriving DecidableEq, Repr

/-- The code before the `while` loop of `gameLoop` (lines 114–139): push the
first prompt, request the reply, parse it when `answerParserPrompt` is
truthy, fold it into the state, and evaluate the status once. -/
def spInit {σ ω : Type} (game : Game σ ω) (model aux : LanguageModel)
    (stateOptions : ω) : SPLoop σ × List SPEvent :=
  let state := game.initializeState stateOptions
  let initialPrompt := game.promptsFirst.resolve state
  let chat1 : Conversation := [⟨"user", initialPrompt⟩]
  let response := model.complete chat1
  let chat2 := chat1 ++ [response]
  let parsedFirst :=
    if PromptSpec.truthy game.answerParserPrompt then
      parseAnswer aux game.answerParserPrompt state response.content
    else response.content
  let state2 := game.updateState state parsedFirst
  (⟨chat2, state2, game.evaluateStatus state2⟩,
    [.prompted initialPrompt, .replied response, .updated parsedFirst])

/-- One iteration of `gameLoop`'s `while` body (lines 142–171): push the turn
prompt, request the reply, parse it when `answerParserPrompt` is truthy, fold
it into the state, and re-evaluate the status. -/
def spTurn {σ ω : Type} (game : Game σ ω) (model aux : LanguageModel)
    (s : SPLoop σ) : SPLoop σ × List SPEvent :=
  let turnPrompt := game.promptsTurn.resolve s.state
  let chat1 := s.chat ++ [⟨"user", turnPrompt⟩]
  let response := model.complete chat1
  let chat2 := chat1 ++ [response]
  let parsedTurn :=
    if PromptSpec.truthy game.answerParserPrompt then
      parseAnswer aux game.answerParserPrompt s.state response.content
    else response.content
  let state2 := game.updateState s.state parsedTurn
  (⟨chat2, state2, game.evaluateStatus state2⟩,
    [.prompted turnPrompt, .replied response, .updated parsedTurn])

/-- The `while (status === GameStatus.Ongoing)` loop of `gameLoop`, with an
explicit fuel bound on the number of iterations; `none` means the fuel ran
out with the status still `Ongoing`. -/
def spRun {σ ω : Type} (game : Game σ ω) (model aux : LanguageModel) :
    Nat → SPLoop σ → Option (SPLoop σ)
  | 0, s => if s.status = GameStatus.Ongoing then none else some s
  | n + 1, s =>
      if s.status = GameStatus.Ongoing then
        spRun game model aux n (spTurn game model aux s).1
      else some s

/-- `gameLoop` (lines 105–181): run `spInit` then the `while` loop, and
return `{ state, status }`. -/
def gameLoop {σ ω : Type} (game : Game σ ω) (model aux : LanguageModel)
    (stateOptions : ω) (fuel : Nat) : Option (σ × GameStatus) :=
  (spRun game model aux fuel (spInit game model aux stateOptions).1).map
    fun s => (s.state, s.status)

/-- The guarded one-turn step used to phrase "evaluateStatus returns a
non-Ongoing status within N calls": iterate the loop body while the most
recent status is `Ongoing`, and stand still afterwards. -/
def spStep {σ ω : Type} (game : Game σ ω) (model aux : LanguageModel)
    (s : SPLoop σ) : SPLoop σ :=
  if s.status = GameStatus.Ongoing then (spTurn game model aux s).1 else s

/-! ### Multiplayer loop (`multiplayerGameLoop`, lines 193–282) -/

/-- The mutable locals of `multiplayerGameLoop`: one chat per supplied
model, the shared state, and the most recent status. -/
structure MPLoop (σ : Type) where
  chats : List Conversation
  state : σ
  status : GameStatus

/-- Observable events of a multiplayer run. -/
inductive MPEvent where
  | skipped : Nat → MPEvent
  | prompted : Nat → String → MPEvent
  | replied : Nat → ChatMessage → MPEvent
  | updated : Nat → String → MPEvent
  | winnerCalled : MPEvent
deriving DecidableEq, Repr

/-- The seat index an event belongs to (`winnerCalled` has none). -/
def MPEvent.seat? : MPEvent → Option Nat
  | .skipped p => some p
  | .prompted p _ => some p
  | .replied p _ => some p
  | .updated p _ => some p
  | .winnerCalled => none

/-- The seat index of a `prompted` event. -/
def MPEvent.promptedSeat? : MPEvent → Option Nat
  | .prompted p _ => some p
  | _ => none

/-- A run-aborting runtime error: accessing `chats[player]` (or
`models[player]`) when `player` is out of range throws a `TypeError` in the
source, since the indexed value is `undefined`. -/
inductive RunError where
  | typeError
deriving DecidableEq, Repr

/-- The seat count driving the inner `for` loop (line 211):
`game.players === "dynamic" ? models.length : game.players`. -/
def playerCount {σ ω : Type} (game : MultiplayerGame σ ω)
    (models : List LanguageModel) : Nat :=
  match game.players with
  | none => models.length
  | some n => n

/-- The body of the inner `for` loop for one seat (lines 214–258), minus the
break test.  Returns the emitted events and either a runtime error (seat out
of range) or `(acted, s')` where `acted` records whether the seat actually
moved (a skipped seat hits `continue` before the status re-evaluation). -/
def mpSeatStep {σ ω : Type} (game : MultiplayerGame σ ω)
    (models : List LanguageModel) (aux : LanguageModel) (player : Nat)
    (s : MPLoop σ) : List MPEvent × Except RunError (Bool × MPLoop σ) :=
  if (match game.shouldSkip with
      | some f => f s.state player
      | none => false) then
    ([.skipped player], .ok (false, s))
  else
    match s.chats.get? player with
    | none => ([], .error .typeError)
    | some chat =>
      let prompt :=
        if chat.isEmpty then game.promptsFirst.resolve s.state player
        else game.promptsTurn.resolve s.state player
      let chat1 := chat ++ [(⟨"user", prompt⟩ : ChatMessage)]
      match models.get? player with
      | none => ([.prompted player prompt], .error .typeError)
      | some model =>
        let response := model.complete chat1
        let chat2 := chat1 ++ [response]
        let parsedAnswer :=
          if PromptSpec.truthy game.answerParserPrompt then
            parseAnswer aux game.answerParserPrompt s.state response.content
          else response.content
        let state2 := game.updateState s.state parsedAnswer player
        ([.prompted player prompt, .replied player response,
            .updated player parsedAnswer],
          .ok (true, ⟨s.chats.set player chat2, state2,
            game.evaluateStatus state2⟩))

/-- The inner `for` loop from seat `player` on, where `r` is the number of
seat indices still to visit (`r + player = playerCount`); after a seat that
actually acted, the loop breaks as soon as the status is non-Ongoing
(lines 260–262). -/
def mpSeats {σ ω : Type} (game : MultiplayerGame σ ω)
    (models : List LanguageModel) (aux : LanguageModel) :
    Nat → Nat → MPLoop σ → List MPEvent × Except RunError (MPLoop σ)
  | 0, _, s => ([], .ok s)
  | r + 1, player, s =>
      match mpSeatStep game models aux player s with
      | (ev, .error e) => (ev, .error e)
      | (ev, .ok (acted, s1)) =>
          if acted = true ∧ s1.status ≠ GameStatus.Ongoing then (ev, .ok s1)
          else
            let rest := mpSeats game models aux r (player + 1) s1
            (ev ++ rest.1, rest.2)

/-- One round: the inner `for` loop from seat 0 over all seats. -/
def mpRound {σ ω : Type} (game : MultiplayerGame σ ω)
    (models : List LanguageModel) (aux : LanguageModel) (s : MPLoop σ) :
    List MPEvent × Except RunError (MPLoop σ) :=
  mpSeats game models aux (playerCount game models) 0 s

/-- The outer `while (status === GameStatus.Ongoing)` loop, with fuel
bounding the number of rounds; `ok none` means the fuel ran out with the
status still `Ongoing`. -/
def mpRunLoop {σ ω : Type} (game : MultiplayerGame σ ω)
    (models : List LanguageModel) (aux : LanguageModel) :
    Nat → MPLoop σ → List MPEvent × Except RunError (Option (MPLoop σ))
  | 0, s =>
      ([], .ok (if s.status = GameStatus.Ongoing then none else some s))
  | n + 1, s =>
      if s.status = GameStatus.Ongoing then
        match mpRound game models aux s with
        | (ev, .error e) => (ev, .error e)
        | (ev, .ok s1) =>
            let rest := mpRunLoop game models aux n s1
            (ev ++ rest.1, rest.2)
      else ([], .ok (some s))

/-- The state at entry of the outer loop (lines 202–204): one empty chat per
model, the initial game state, status `Ongoing`. -/
def mpInit {σ ω : Type} (game : MultiplayerGame σ ω)
    (models : List LanguageModel) (stateOptions : ω) : MPLoop σ :=
  ⟨models.map fun _ => [], game.initializeState stateOptions,
    GameStatus.Ongoing⟩

/-- The value returned by `multiplayerGameLoop`. -/
structure MPResult (σ : Type) where
  state : σ
  status : GameStatus
  winner : Int
  chats : List Conversation
deriving Repr

/-- `multiplayerGameLoop` (lines 193–282): initialize, run the outer loop,
then compute the winner — `let winner = -1; if (status !== Draw) winner =
game.winner(state)` (lines 270–273) — and return
`{ state, status, winner }` (the per-seat chats are carried along so that
conversation properties can be stated). -/
def multiplayerGameLoop {σ ω : Type} (game : MultiplayerGame σ ω)
    (models : List LanguageModel) (aux : LanguageModel) (stateOptions : ω)
    (fuel : Nat) : List MPEvent × Except RunError (Option (MPResult σ)) :=
  match mpRunLoop game models aux fuel (mpInit game models stateOptions) with
  | (ev, .error e) => (ev, .error e)
  | (ev, .ok none) => (ev, .ok none)
  | (ev, .ok (some s)) =>
      if s.status ≠ GameStatus.Draw then
        (ev ++ [.winnerCalled],
          .ok (some ⟨s.state, s.status, game.winner s.state, s.chats⟩))
      else (ev, .ok (some ⟨s.state, s.status, -1, s.chats⟩))

/-- The guarded one-round step used to phrase "evaluateStatus returns a
non-Ongoing status within N rounds" for the multiplayer loop: run one round
while the status is `Ongoing`, and stand still afterwards. -/
def mpStep {σ ω : Type} (game : MultiplayerGame σ ω)
    (models : List LanguageModel) (aux : LanguageModel) (s : MPLoop σ) :
    Except RunError (MPLoop σ) :=
  if s.status = GameStatus.Ongoing then (mpRound game models aux s).2
  else .ok s

/-- `n` successive guarded rounds, propagating a runtime error. -/
def mpIter {σ ω : Type} (game : MultiplayerGame σ ω)
    (models : List LanguageModel) (aux : LanguageModel) :
    Nat → MPLoop σ → Except RunError (MPLoop σ)
  | 0, s => .ok s
  | n + 1, s =>
      match mpStep game models aux s with
      | .error e => .error e
      | .ok s1 => mpIter game models aux n s1

/-! ### Adversarial loop (`adversarialGameLoop`, lines 299–398) -/

/-- The mutable locals of `adversarialGameLoop`: the generator's accumulated
chat, the solver's (rebuilt-each-round) chat, the shared state, and the
most recent status guarding the loop. -/
structure AdvLoop (σ : Type) where
  genChat : Conversation
  solChat : Conversation
  state : σ
  generatorStatus : GameStatus

/-- The code before the adversarial `while` loop (lines 312–337): send the
generator game's first prompt, take the generator's reply raw (no answer
parsing in this loop), fold it into the shared state, and evaluate the
*generator* game's status once. -/
def advInit {σ ω : Type} (generatorGame : Game σ ω)
    (generatorModel : LanguageModel) (generatorParams : ω) : AdvLoop σ :=
  let state := generatorGame.initializeState generatorParams
  let genInitialPrompt := generatorGame.promptsFirst.resolve state
  let genChat1 : Conversation := [⟨"user", genInitialPrompt⟩]
  let generatorResponse := generatorModel.complete genChat1
  let genChat2 := genChat1 ++ [generatorResponse]
  let state2 := generatorGame.updateState state generatorResponse.content
  ⟨genChat2, [], state2, generatorGame.evaluateStatus state2⟩

/-- One iteration of the adversarial `while` body (lines 339–385): one
generator turn on the accumulated generator chat, then one solver turn on a
freshly rebuilt single-prompt solver chat, then the continuation status is
the *solver* game's `evaluateStatus` on the shared state. -/
def advStep {σ ω ω' : Type} (generatorGame : Game σ ω)
    (solverGame : Game σ ω') (generatorModel solverModel : LanguageModel)
    (s : AdvLoop σ) : AdvLoop σ :=
  let genTurnPrompt := generatorGame.promptsTurn.resolve s.state
  let genChat1 := s.genChat ++ [(⟨"user", genTurnPrompt⟩ : ChatMessage)]
  let generatorResponse := generatorModel.complete genChat1
  let genChat2 := genChat1 ++ [generatorResponse]
  let state1 := generatorGame.updateState s.state generatorResponse.content
  let solTurnPrompt := solverGame.promptsTurn.resolve state1
  let solChat1 : Conversation := [⟨"user", solTurnPrompt⟩]
  let solverResponse := solverModel.complete solChat1
  let solChat2 := solChat1 ++ [solverResponse]
  let state2 := solverGame.updateState state1 solverResponse.content
  ⟨genChat2, solChat2, state2, solverGame.evaluateStatus state2⟩

/-- The adversarial `while (generatorStatus === Ongoing)` loop with fuel. -/
def advRun {σ ω ω' : Type} (generatorGame : Game σ ω)
    (solverGame : Game σ ω') (generatorModel solverModel : LanguageModel) :
    Nat → AdvLoop σ → Option (AdvLoop σ)
  | 0, s => if s.generatorStatus = GameStatus.Ongoing then none else some s
  | n + 1, s =>
      if s.generatorStatus = GameStatus.Ongoing then
        advRun generatorGame solverGame generatorModel solverModel n
          (advStep generatorGame solverGame generatorModel solverModel s)
      else some s

/-- `adversarialGameLoop` (lines 299–398): initialize with the generator
phase, run the combined loop, and return the final shared state (the full
loop record is kept so that chats can be inspected). -/
def adversarialGameLoop {σ ω ω' : Type} (generatorGame : Game σ ω)
    (solverGame : Game σ ω') (generatorModel solverModel : LanguageModel)
    (generatorParams : ω) (fuel : Nat) : Option (AdvLoop σ) :=
  advRun generatorGame solverGame generatorModel solverModel fuel
    (advInit generatorGame generatorModel generatorParams)

/-! ### The shipped guess-the-number game (`src/unnamed/part_005`) -/

/-- The state of `guessNumberGame`: `{ guesses: number[]; target: number }`. -/
structure GuessNumberState where
  guesses : List Int
  target : Int
deriving DecidableEq, Repr

/-- `guessNumberGame.evaluateStatus` (`src/unnamed/part_005` lines 7–15):
the eight-guess limit is checked first, then the last guess is compared to
the target (`guesses[guesses.length - 1] === target`; on an empty list that
indexing yields `undefined`, which is never equal to the target). -/
def guessNumberEvaluateStatus (s : GuessNumberState) : GameStatus :=
  if 8 ≤ s.guesses.length then GameStatus.Loss
  else if s.guesses.getLast? = some s.target then GameStatus.Win
  else GameStatus.Ongoing

/-! ### Concrete participants and games used as test inputs -/

/-- A scripted participant that always replies with the same text. -/
def constModel (s : String) : LanguageModel :=
  ⟨fun _ => ⟨"assistant", s⟩⟩

/-- A concrete stand-in for the fixed auxiliary extraction participant. -/
def auxModel : LanguageModel := constModel "aux"

/-- The seats of the `prompted` events of a trace, in order. -/
def promptedSeats (tr : List MPEvent) : List Nat :=
  tr.filterMap MPEvent.promptedSeat?

/-- Test game for C2: two seats; every move increments the shared counter
and the game is won as soon as one move was made, so seat 0's move always
produces a `Win` status. -/
def seatZeroWinsGame : MultiplayerGame Nat Unit where
  players := some 2
  promptsFirst := .str "your move"
  promptsTurn := .str "your move"
  evaluateStatus := fun n => if 1 ≤ n then GameStatus.Win else GameStatus.Ongoing
  initializeState := fun _ => 0
  updateState := fun n _ _ => n + 1
  winner := fun _ => 0

/-- Test game for C3: three seats, seat 1 permanently marked as skipped;
every move increments the shared counter and the game is won after two
moves (one full round of the two active seats). -/
def skipSeatOneGame : MultiplayerGame Nat Unit where
  players := some 3
  promptsFirst := .str "go"
  promptsTurn := .str "go"
  evaluateStatus := fun n => if 2 ≤ n then GameStatus.Win else GameStatus.Ongoing
  initializeState := fun _ => 0
  updateState := fun n _ _ => n + 1
  shouldSkip := some fun _ p => p == 1
  winner := fun _ => 0

/-- Test game for C7 with seat count zero: the inner loop visits no seat. -/
def zeroSeatGame : MultiplayerGame Nat Unit where
  players := some 0
  promptsFirst := .str "p"
  promptsTurn := .str "p"
  evaluateStatus := fun _ => GameStatus.Ongoing
  initializeState := fun _ => 0
  updateState := fun n _ _ => n + 1
  winner := fun _ => 0

/-- Test game for C7 with a fixed seat count of two, to be run with a
single participant (fewer participants than seats). -/
def twoSeatGame : MultiplayerGame Nat Unit where
  players := some 2
  promptsFirst := .str "p"
  promptsTurn := .str "p"
  evaluateStatus := fun _ => GameStatus.Ongoing
  initializeState := fun _ => 0
  updateState := fun n _ _ => n + 1
  winner := fun _ => 0

/-- Shared state for the adversarial scenario of C4: how many generator
updates and how many solver updates have been folded in so far. -/
structure GenSolState where
  gen : Nat
  sol : Nat
deriving DecidableEq, Repr

/-- Adversarial-scenario generator game: its own evaluator leaves the
status `Ongoing` after its first update and declares `Win` from its second
update on (the generator "wins on its second turn"). -/
def genTwoTurnGame : Game GenSolState Unit where
  promptsFirst := .str "generate a challenge"
  promptsTurn := .str "generate a harder challenge"
  evaluateStatus := fun s =>
    if 2 ≤ s.gen then GameStatus.Win else GameStatus.Ongoing
  initializeState := fun _ => ⟨0, 0⟩
  updateState := fun s _ => ⟨s.gen + 1, s.sol⟩

/-- Adversarial-scenario solver game: the solver always answers correctly,
so its evaluator returns a non-Ongoing status as soon as at least one
solver answer has been folded into the shared state. -/
def solAlwaysCorrectGame : Game GenSolState Unit where
  promptsFirst := .str "solve"
  promptsTurn := .str "solve the challenge"
  evaluateStatus := fun s =>
    if 1 ≤ s.sol then GameStatus.Win else GameStatus.Ongoing
  initializeState := fun _ => ⟨0, 0⟩
  updateState := fun s _ => ⟨s.gen, s.sol + 1⟩

/-- Test single-participant game: each turn increments the counter and the
game is won after the first update. -/
def singleQuickGame : Game Nat Unit where
  promptsFirst := .str "f"
  promptsTurn := .str "t"
  evaluateStatus := fun n =>
    if 1 ≤ n then GameStatus.Win else GameStatus.Ongoing
  initializeState := fun _ => 0
  updateState := fun n _ => n + 1

/-! ### Theorems -/

/-- Characterization of a seat step on which the seat actually acted: the
seat was in range, and the emitted events and the resulting loop state are
exactly those of lines 226–258 of the source. -/
lemma mpSeatStep_ok_true {σ ω : Type} {game : MultiplayerGame σ ω}
    {models : List LanguageModel} {aux : LanguageModel} {player : Nat}
    {s s' : MPLoop σ}
    (hstep : (mpSeatStep game models aux player s).2 = .ok (true, s')) :
    ∃ chat model prompt response parsed,
      s.chats.get? player = some chat ∧
      models.get? player = some model ∧
      prompt = (if chat.isEmpty then game.promptsFirst.resolve s.state player
                else game.promptsTurn.resolve s.state player) ∧
      response = model.complete (chat ++ [⟨"user", prompt⟩]) ∧
      parsed = (if PromptSpec.truthy game.answerParserPrompt then
                  parseAnswer aux game.answerParserPrompt s.state
                    response.content
                else response.content) ∧
      (mpSeatStep game models aux player s).1 =
        [MPEvent.prompted player prompt, MPEvent.replied player response,
          MPEvent.updated player parsed] ∧
      s'.chats = s.chats.set player (chat ++ [⟨"user", prompt⟩] ++ [response]) ∧
      s'.state = game.updateState s.state parsed player ∧
      s'.status =
        game.evaluateStatus (game.updateState s.state parsed player) := by
  by_cases hskip : (match game.shouldSkip with
      | some f => f s.state player
      | none => false) = true
  · exfalso
    simp only [mpSeatStep, hskip, if_true] at hstep
    simp at hstep
  · rw [Bool.not_eq_true] at hskip
    cases hchat : s.chats.get? player with
    | none =>
        exfalso
        simp only [mpSeatStep, hskip, Bool.false_eq_true, if_false, hchat]
          at hstep
        cases hstep
    | some chat =>
        cases hmodel : models.get? player with
        | none =>
            exfalso
            simp only [mpSeatStep, hskip, Bool.false_eq_true, if_false, hchat,
              hmodel] at hstep
            cases hstep
        | some model =>
            simp only [mpSeatStep, hskip, Bool.false_eq_true, if_false, hchat,
              hmodel, Except.ok.injEq, Prod.mk.injEq, true_and] at hstep
            refine ⟨chat, model, _, _, _, rfl, rfl, rfl, rfl, rfl, ?_, ?_, ?_, ?_⟩
            · simp only [mpSeatStep, hskip, Bool.false_eq_true, if_false,
                hchat, hmodel]
            · rw [← hstep]
            · rw [← hstep]
            · rw [← hstep]

/-- Characterization of a skipped seat: the step emits only the skip log and
leaves the loop state untouched (lines 217–223 of the source). -/
lemma mpSeatStep_skip {σ ω : Type} {game : MultiplayerGame σ ω}
    {models : List LanguageModel} {aux : LanguageModel} {player : Nat}
    {s : MPLoop σ}
    (hskip : (match game.shouldSkip with
      | some f => f s.state player
      | none => false) = true) :
    mpSeatStep game models aux player s = ([.skipped player], .ok (false, s)) := by
  simp only [mpSeatStep, hskip, if_true]

/-- **C10.** In the shipped guess-the-number game, `evaluateStatus` checks
the eight-guess limit before the target-match check: with at least 8 guesses
the status is `Loss` even when the last guess equals the target, and `Win`
is returned exactly when there are fewer than 8 guesses and the last guess
equals the target (so a correct guess wins only among the first seven). -/
theorem guessNumber_limit_before_match :
    (∀ s : GuessNumberState, 8 ≤ s.guesses.length →
      guessNumberEvaluateStatus s = GameStatus.Loss) ∧
    (∀ s : GuessNumberState,
      guessNumberEvaluateStatus s = GameStatus.Win ↔
        s.guesses.length < 8 ∧ s.guesses.getLast? = some s.target) := by
  constructor
  · intro s h
    simp [guessNumberEvaluateStatus, h]
  · intro s
    unfold guessNumberEvaluateStatus
    rcases Nat.lt_or_ge s.guesses.length 8 with h8 | h8
    · rw [if_neg (by omega)]
      by_cases hl : s.guesses.getLast? = some s.target
      · rw [if_pos hl]
        exact ⟨fun _ => ⟨h8, hl⟩, fun _ => rfl⟩
      · rw [if_neg hl]
        exact ⟨fun h => GameStatus.noConfusion h, fun h => absurd h.2 hl⟩
    · rw [if_pos h8]
      exact ⟨fun h => GameStatus.noConfusion h, fun h => absurd h.1 (by omega)⟩

/-- Witness for C10: eight guesses, the eighth being exactly the target,
still yield `Loss`. -/
theorem guessNumber_limit_before_match_witness :
    guessNumberEvaluateStatus ⟨[50, 40, 45, 43, 41, 44, 46, 42], 42⟩ =
      GameStatus.Loss :=
  guessNumber_limit_before_match.1 ⟨[50, 40, 45, 43, 41, 44, 46, 42], 42⟩
    (by decide)

/-- **C6.** The answer-extraction step: whenever the answer-parser
instruction is truthy, `parseAnswer` invokes the auxiliary participant with
exactly the two-message conversation [system: resolved instruction,
user: raw reply] and returns the reply content trimmed of surrounding
whitespace.  This covers both the literal-string and the
function-of-state forms of the instruction. -/
theorem extraction_two_message_trimmed {σ : Type} (aux : LanguageModel)
    (p : PromptSpec σ) (state : σ) (rawAnswer : String)
    (h : PromptSpec.truthy (some p) = true) :
    parseAnswer aux (some p) state rawAnswer =
      (aux.complete [⟨"system", p.resolve state⟩,
        ⟨"user", rawAnswer⟩]).content.trim := by
  cases p with
  | str s =>
      have hs : s.isEmpty = false := by
        simpa [PromptSpec.truthy] using h
      simp [parseAnswer, getParsedResponse, PromptSpec.resolve, hs]
  | fn f =>
      simp [parseAnswer, getParsedResponse, PromptSpec.resolve]

/-- Witness for C6 at a concrete instruction, raw text and auxiliary
participant (which replies with padded whitespace, exercising the trim). -/
theorem extraction_two_message_trimmed_witness :
    parseAnswer (constModel "  42 ")
        (some (PromptSpec.str "Extract the number.")) (0 : Nat) "I pick 42" =
      ((constModel "  42 ").complete
        [⟨"system", "Extract the number."⟩, ⟨"user", "I pick 42"⟩]).content.trim :=
  extraction_two_message_trimmed (constModel "  42 ")
    (PromptSpec.str "Extract the number.") 0 "I pick 42" (by decide)

/-- **C5.** When the answer-parser instruction is absent (`none`, covering
both an absent field and `null`), every turn of both loops passes the
participant's raw reply content to `updateState` unmodified: the step's
trace records an update with exactly the replied message's content, the new
state is `updateState` applied to that raw content, and the step does not
depend on the auxiliary extraction participant at all. -/
theorem raw_reply_without_extraction :
    (∀ (σ ω : Type) (game : Game σ ω) (model aux : LanguageModel)
        (s : SPLoop σ), game.answerParserPrompt = none →
      (∃ P R, (spTurn game model aux s).2 =
          [SPEvent.prompted P, SPEvent.replied R, SPEvent.updated R.content] ∧
        (spTurn game model aux s).1.state =
          game.updateState s.state R.content) ∧
      ∀ aux' : LanguageModel,
        spTurn game model aux s = spTurn game model aux' s) ∧
    (∀ (σ ω : Type) (game : Game σ ω) (model aux : LanguageModel) (opts : ω),
      game.answerParserPrompt = none →
      (∃ P R, (spInit game model aux opts).2 =
          [SPEvent.prompted P, SPEvent.replied R, SPEvent.updated R.content] ∧
        (spInit game model aux opts).1.state =
          game.updateState (game.initializeState opts) R.content) ∧
      ∀ aux' : LanguageModel,
        spInit game model aux opts = spInit game model aux' opts) ∧
    (∀ (σ ω : Type) (game : MultiplayerGame σ ω)
        (models : List LanguageModel) (aux : LanguageModel) (player : Nat)
        (s : MPLoop σ) (acted : Bool) (s' : MPLoop σ),
      game.answerParserPrompt = none →
      (mpSeatStep game models aux player s).2 = .ok (acted, s') →
      acted = true →
      (∃ P R, (mpSeatStep game models aux player s).1 =
          [MPEvent.prompted player P, MPEvent.replied player R,
            MPEvent.updated player R.content] ∧
        s'.state = game.updateState s.state R.content player) ∧
      ∀ aux' : LanguageModel,
        mpSeatStep game models aux player s =
          mpSeatStep game models aux' player s) := by
  refine ⟨?_, ?_, ?_⟩
  · intro σ ω game model aux s h
    refine ⟨⟨game.promptsTurn.resolve s.state,
      model.complete (s.chat ++ [⟨"user", game.promptsTurn.resolve s.state⟩]),
      ?_, ?_⟩, ?_⟩
    · simp [spTurn, h, PromptSpec.truthy]
    · simp [spTurn, h, PromptSpec.truthy]
    · intro aux'
      simp [spTurn, h, PromptSpec.truthy]
  · intro σ ω game model aux opts h
    refine ⟨⟨game.promptsFirst.resolve (game.initializeState opts),
      model.complete
        [⟨"user", game.promptsFirst.resolve (game.initializeState opts)⟩],
      ?_, ?_⟩, ?_⟩
    · simp [spInit, h, PromptSpec.truthy]
    · simp [spInit, h, PromptSpec.truthy]
    · intro aux'
      simp [spInit, h, PromptSpec.truthy]
  · intro σ ω game models aux player s acted s' h hstep hacted
    subst hacted
    obtain ⟨chat, model, prompt, response, parsed, hchat, hmodel, hp, hr, hpa,
      hev, hchats, hstate, hstatus⟩ := mpSeatStep_ok_true hstep
    rw [h] at hpa
    simp only [PromptSpec.truthy, Bool.false_eq_true, if_false] at hpa
    constructor
    · exact ⟨prompt, response, by rw [hev, hpa], by rw [hstate, hpa]⟩
    · intro aux'
      have h2 : ∀ b : LanguageModel,
          mpSeatStep game models b player s =
            mpSeatStep game models auxModel player s := by
        intro b
        simp [mpSeatStep, h, PromptSpec.truthy]
      rw [h2 aux, h2 aux']

/-- Witness for C5: a concrete parserless game whose turn step passes the
scripted participant's raw reply to `updateState`. -/
theorem raw_reply_without_extraction_witness :
    ∃ P R,
      (spTurn
          ({ promptsFirst := .str "f", promptsTurn := .str "t",
             evaluateStatus := fun _ => GameStatus.Ongoing,
             initializeState := fun _ => "", updateState := fun _ a => a } :
            Game String Unit)
          (constModel "raw reply") auxModel ⟨[], "", GameStatus.Ongoing⟩).2 =
        [SPEvent.prompted P, SPEvent.replied R, SPEvent.updated R.content] ∧
      (spTurn
          ({ promptsFirst := .str "f", promptsTurn := .str "t",
             evaluateStatus := fun _ => GameStatus.Ongoing,
             initializeState := fun _ => "", updateState := fun _ a => a } :
            Game String Unit)
          (constModel "raw reply") auxModel ⟨[], "", GameStatus.Ongoing⟩).1.state =
        ({ promptsFirst := .str "f", promptsTurn := .str "t",
           evaluateStatus := fun _ => GameStatus.Ongoing,
           initializeState := fun _ => "", updateState := fun _ a => a } :
          Game String Unit).updateState "" R.content :=
  (raw_reply_without_extraction.1 String Unit _ (constModel "raw reply") auxModel
    ⟨[], "", GameStatus.Ongoing⟩ rfl).1

/-- Every event a seat step emits is tagged with exactly that seat, and the
step emits at most one `prompted` event (for that seat). -/
lemma mpSeatStep_events_seat {σ ω : Type} (game : MultiplayerGame σ ω)
    (models : List LanguageModel) (aux : LanguageModel) (player : Nat)
    (s : MPLoop σ) :
    (∀ e ∈ (mpSeatStep game models aux player s).1, e.seat? = some player) ∧
    (promptedSeats (mpSeatStep game models aux player s).1 = [] ∨
      promptedSeats (mpSeatStep game models aux player s).1 = [player]) := by
  unfold mpSeatStep
  split
  · refine ⟨?_, Or.inl rfl⟩
    intro e he
    simp only [List.mem_singleton] at he
    subst he; rfl
  · cases hchat : s.chats.get? player with
    | none =>
        simp only [hchat]
        exact ⟨fun e he => absurd he (List.not_mem_nil e), Or.inl rfl⟩
    | some chat =>
        simp only [hchat]
        cases hmodel : models.get? player with
        | none =>
            simp only [hmodel]
            refine ⟨?_, Or.inr rfl⟩
            intro e he
            simp only [List.mem_singleton] at he
            subst he; rfl
        | some model =>
            simp only [hmodel]
            refine ⟨?_, Or.inr rfl⟩
            intro e he
            simp only [List.mem_cons, List.not_mem_nil, or_false] at he
            rcases he with h | h | h <;> (subst h; rfl)

/-- Every event emitted by the inner seat loop started at seat `player`
belongs to a seat index at least `player`. -/
lemma mpSeats_events_seat_le {σ ω : Type} (game : MultiplayerGame σ ω)
    (models : List LanguageModel) (aux : LanguageModel) :
    ∀ (r player : Nat) (s : MPLoop σ) (e : MPEvent),
      e ∈ (mpSeats game models aux r player s).1 →
      ∀ q, e.seat? = some q → player ≤ q := by
  intro r
  induction r with
  | zero =>
      intro player s e he
      simp [mpSeats] at he
  | succ n ih =>
      intro player s e he q hq
      rw [mpSeats] at he
      rcases hstep : mpSeatStep game models aux player s with ⟨ev, res⟩
      have hev : ∀ e ∈ ev, MPEvent.seat? e = some player := by
        have := (mpSeatStep_events_seat game models aux player s).1
        rw [hstep] at this
        exact this
      rw [hstep] at he
      cases res with
      | error err =>
          simp only at he
          have := hev e he
          rw [hq] at this
          exact le_of_eq (Option.some.inj this).symm
      | ok p =>
          rcases p with ⟨acted, s1⟩
          simp only at he
          by_cases hb : acted = true ∧ s1.status ≠ GameStatus.Ongoing
          · rw [if_pos hb] at he
            have := hev e he
            rw [hq] at this
            exact le_of_eq (Option.some.inj this).symm
          · rw [if_neg hb] at he
            simp only [List.mem_append] at he
            rcases he with h | h
            · have := hev e h
              rw [hq] at this
              exact le_of_eq (Option.some.inj this).symm
            · exact Nat.le_of_succ_le (ih (player + 1) s1 e h q hq)

/-- The seat of a `prompted` event is its seat. -/
lemma MPEvent.seat_of_promptedSeat {e : MPEvent} {q : Nat}
    (h : e.promptedSeat? = some q) : e.seat? = some q := by
  cases e <;> simp [MPEvent.promptedSeat?, MPEvent.seat?] at h ⊢
  exact h

/-- Within one inner seat loop, the seats that get prompted are strictly
ascending. -/
lemma mpSeats_promptedSeats_sorted {σ ω : Type} (game : MultiplayerGame σ ω)
    (models : List LanguageModel) (aux : LanguageModel) :
    ∀ (r player : Nat) (s : MPLoop σ),
      List.Pairwise (· < ·)
        (promptedSeats (mpSeats game models aux r player s).1) := by
  intro r
  induction r with
  | zero =>
      intro player s
      simp [mpSeats, promptedSeats]
  | succ n ih =>
      intro player s
      rw [mpSeats]
      rcases hstep : mpSeatStep game models aux player s with ⟨ev, res⟩
      have hev1 : promptedSeats ev = [] ∨ promptedSeats ev = [player] := by
        have := (mpSeatStep_events_seat game models aux player s).2
        rw [hstep] at this
        exact this
      have hsorted_ev : List.Pairwise (· < ·) (promptedSeats ev) := by
        rcases hev1 with h | h <;> rw [h] <;> simp
      cases res with
      | error err => exact hsorted_ev
      | ok p =>
          rcases p with ⟨acted, s1⟩
          simp only
          by_cases hb : acted = true ∧ s1.status ≠ GameStatus.Ongoing
          · rw [if_pos hb]
            exact hsorted_ev
          · rw [if_neg hb]
            simp only [promptedSeats, List.filterMap_append]
            rw [List.pairwise_append]
            refine ⟨hsorted_ev, ih (player + 1) s1, ?_⟩
            intro x hx y hy
            have hx' : x = player := by
              rcases hev1 with h | h <;> rw [promptedSeats] at h <;>
                rw [h] at hx
              · exact absurd hx (List.not_mem_nil x)
              · simpa using hx
            rcases List.mem_filterMap.mp hy with ⟨e, he, hq⟩
            have h1 : player + 1 ≤ y :=
              mpSeats_events_seat_le game models aux n (player + 1) s1 e he y
                (MPEvent.seat_of_promptedSeat hq)
            omega

/-- **C2.** The engine re-evaluates the status immediately after every
single seat's `updateState`: as soon as an acting seat's move leaves the
status non-Ongoing, the inner seat loop returns at once, emitting no event
for any later seat of that round.  Concretely, in a two-seat game where
seat 0's move always produces `Win`, the whole run prompts only seat 0:
seat 1 appears nowhere in the trace and its conversation stays empty. -/
theorem midround_stop :
    (∀ (σ ω : Type) (game : MultiplayerGame σ ω)
        (models : List LanguageModel) (aux : LanguageModel)
        (r player : Nat) (s s1 : MPLoop σ) (ev : List MPEvent),
      mpSeatStep game models aux player s = (ev, .ok (true, s1)) →
      s1.status ≠ GameStatus.Ongoing →
      mpSeats game models aux (r + 1) player s = (ev, .ok s1)) ∧
    multiplayerGameLoop seatZeroWinsGame [constModel "a0", constModel "a1"]
        auxModel () 3 =
      ([MPEvent.prompted 0 "your move",
        MPEvent.replied 0 ⟨"assistant", "a0"⟩,
        MPEvent.updated 0 "a0", MPEvent.winnerCalled],
       .ok (some ⟨1, GameStatus.Win, 0,
         [[⟨"user", "your move"⟩, ⟨"assistant", "a0"⟩], []]⟩)) := by
  constructor
  · intro σ ω game models aux r player s s1 ev hstep hs
    rw [mpSeats, hstep]
    simp [hs]
  · rfl

/-- Witness for C2: the break equation of the inner loop, instantiated at
the two-seat seat-0-wins game (seat 0 acts, the status becomes `Win`, and
the round ends with exactly seat 0's three events). -/
theorem midround_stop_witness :
    mpSeats seatZeroWinsGame [constModel "a0", constModel "a1"] auxModel 2 0
        (mpInit seatZeroWinsGame [constModel "a0", constModel "a1"] ()) =
      ([MPEvent.prompted 0 "your move",
        MPEvent.replied 0 ⟨"assistant", "a0"⟩, MPEvent.updated 0 "a0"],
       .ok ⟨[[⟨"user", "your move"⟩, ⟨"assistant", "a0"⟩], []], 1,
         GameStatus.Win⟩) :=
  midround_stop.1 Nat Unit seatZeroWinsGame
    [constModel "a0", constModel "a1"] auxModel 1 0 _ _ _ rfl (by decide)

/-- **C3.** Seats are visited in strictly ascending order within a round
(the prompted seats of any inner-loop trace are pairwise increasing, and
every event of a loop started at seat `p` belongs to a seat `≥ p`); a seat
whose `shouldSkip` returns true is passed over with only a skip log and an
unchanged loop state.  Concretely, in the three-seat game that always skips
seat 1, the run prompts seats 0 and 2 in order, seat 1 is only ever
skipped, and seat 1's conversation stays empty. -/
theorem seat_order_and_skip :
    (∀ (σ ω : Type) (game : MultiplayerGame σ ω)
        (models : List LanguageModel) (aux : LanguageModel)
        (r player : Nat) (s : MPLoop σ),
      List.Pairwise (· < ·)
        (promptedSeats (mpSeats game models aux r player s).1) ∧
      ∀ e ∈ (mpSeats game models aux r player s).1,
        ∀ q, e.seat? = some q → player ≤ q) ∧
    (∀ (σ ω : Type) (game : MultiplayerGame σ ω)
        (models : List LanguageModel) (aux : LanguageModel) (player : Nat)
        (s : MPLoop σ),
      (match game.shouldSkip with
        | some f => f s.state player
        | none => false) = true →
      mpSeatStep game models aux player s =
        ([.skipped player], .ok (false, s))) ∧
    multiplayerGameLoop skipSeatOneGame
        [constModel "a0", constModel "a1", constModel "a2"] auxModel () 2 =
      ([MPEvent.prompted 0 "go", MPEvent.replied 0 ⟨"assistant", "a0"⟩,
        MPEvent.updated 0 "a0", MPEvent.skipped 1,
        MPEvent.prompted 2 "go", MPEvent.replied 2 ⟨"assistant", "a2"⟩,
        MPEvent.updated 2 "a2", MPEvent.winnerCalled],
       .ok (some ⟨2, GameStatus.Win, 0,
         [[⟨"user", "go"⟩, ⟨"assistant", "a0"⟩], [],
          [⟨"user", "go"⟩, ⟨"assistant", "a2"⟩]]⟩)) := by
  refine ⟨?_, ?_, ?_⟩
  · intro σ ω game models aux r player s
    exact ⟨mpSeats_promptedSeats_sorted game models aux r player s,
      mpSeats_events_seat_le game models aux r player s⟩
  · intro σ ω game models aux player s hskip
    exact mpSeatStep_skip hskip
  · rfl

/-- Witness for C3: the skip equation instantiated at seat 1 of the
skip-seat-1 game. -/
theorem seat_order_and_skip_witness :
    mpSeatStep skipSeatOneGame
        [constModel "a0", constModel "a1", constModel "a2"] auxModel 1
        (mpInit skipSeatOneGame
          [constModel "a0", constModel "a1", constModel "a2"] ()) =
      ([.skipped 1], .ok (false,
        mpInit skipSeatOneGame
          [constModel "a0", constModel "a1", constModel "a2"] ())) :=
  seat_order_and_skip.2.1 Nat Unit skipSeatOneGame
    [constModel "a0", constModel "a1", constModel "a2"] auxModel 1 _ rfl

/-- A seat step never emits the winner-computation event. -/
lemma winnerCalled_not_mem_mpSeatStep {σ ω : Type}
    (game : MultiplayerGame σ ω) (models : List LanguageModel)
    (aux : LanguageModel) (player : Nat) (s : MPLoop σ) :
    MPEvent.winnerCalled ∉ (mpSeatStep game models aux player s).1 := by
  intro h
  have := (mpSeatStep_events_seat game models aux player s).1 _ h
  simp [MPEvent.seat?] at this

/-- The inner seat loop never emits the winner-computation event. -/
lemma winnerCalled_not_mem_mpSeats {σ ω : Type}
    (game : MultiplayerGame σ ω) (models : List LanguageModel)
    (aux : LanguageModel) :
    ∀ (r player : Nat) (s : MPLoop σ),
      MPEvent.winnerCalled ∉ (mpSeats game models aux r player s).1 := by
  intro r
  induction r with
  | zero =>
      intro player s
      simp [mpSeats]
  | succ n ih =>
      intro player s
      rw [mpSeats]
      rcases hstep : mpSeatStep game models aux player s with ⟨ev, res⟩
      have hev : MPEvent.winnerCalled ∉ ev := by
        have := winnerCalled_not_mem_mpSeatStep game models aux player s
        rw [hstep] at this
        exact this
      cases res with
      | error err => exact hev
      | ok p =>
          rcases p with ⟨acted, s1⟩
          simp only
          by_cases hb : acted = true ∧ s1.status ≠ GameStatus.Ongoing
          · rw [if_pos hb]
            exact hev
          · rw [if_neg hb]
            simp only [List.mem_append, not_or]
            exact ⟨hev, ih (player + 1) s1⟩

/-- The outer loop never emits the winner-computation event either: it only
appears in the post-loop winner computation. -/
lemma winnerCalled_not_mem_mpRunLoop {σ ω : Type}
    (game : MultiplayerGame σ ω) (models : List LanguageModel)
    (aux : LanguageModel) :
    ∀ (fuel : Nat) (s : MPLoop σ),
      MPEvent.winnerCalled ∉ (mpRunLoop game models aux fuel s).1 := by
  intro fuel
  induction fuel with
  | zero =>
      intro s
      simp [mpRunLoop]
  | succ n ih =>
      intro s
      rw [mpRunLoop]
      by_cases hs : s.status = GameStatus.Ongoing
      · rw [if_pos hs]
        rcases hround : mpRound game models aux s with ⟨ev, res⟩
        have hev : MPEvent.winnerCalled ∉ ev := by
          have := winnerCalled_not_mem_mpSeats game models aux
            (playerCount game models) 0 s
          rw [mpRound] at hround
          rw [hround] at this
          exact this
        cases res with
        | error e => exact hev
        | ok s1 =>
            simp only [List.mem_append, not_or]
            exact ⟨hev, ih s1⟩
      · rw [if_neg hs]
        simp

/-- **C8.** After the multiplayer loop exits, the winner function is
consulted exactly when the final status is not `Draw`: on a `Draw` the
returned winner is the sentinel `-1` and the winner-computation event never
occurs in the trace; on any other final status the returned winner is
`game.winner` of the final state and the winner computation happens exactly
once in the whole run. -/
theorem winner_call_policy :
    ∀ (σ ω : Type) (game : MultiplayerGame σ ω) (models : List LanguageModel)
      (aux : LanguageModel) (opts : ω) (fuel : Nat) (tr : List MPEvent)
      (res : MPResult σ),
      multiplayerGameLoop game models aux opts fuel = (tr, .ok (some res)) →
      (res.status = GameStatus.Draw →
        res.winner = -1 ∧ MPEvent.winnerCalled ∉ tr) ∧
      (res.status ≠ GameStatus.Draw →
        res.winner = game.winner res.state ∧
        tr.count MPEvent.winnerCalled = 1) := by
  intro σ ω game models aux opts fuel tr res h
  unfold multiplayerGameLoop at h
  rcases hloop : mpRunLoop game models aux fuel (mpInit game models opts)
    with ⟨ev, lres⟩
  have hev : MPEvent.winnerCalled ∉ ev := by
    have := winnerCalled_not_mem_mpRunLoop game models aux fuel
      (mpInit game models opts)
    rw [hloop] at this
    exact this
  rw [hloop] at h
  cases lres with
  | error e => cases h
  | ok o =>
      cases o with
      | none => simp at h
      | some s =>
          dsimp only at h
          by_cases hd : s.status ≠ GameStatus.Draw
          · rw [if_pos hd] at h
            obtain ⟨htr, hres⟩ := Prod.mk.inj h
            have hres' := Option.some.inj (Except.ok.inj hres)
            subst htr
            rw [← hres']
            constructor
            · intro hdraw
              exact absurd hdraw hd
            · intro _
              refine ⟨rfl, ?_⟩
              rw [List.count_append]
              rw [List.count_eq_zero.mpr hev]
              rfl
          · rw [if_neg hd] at h
            obtain ⟨htr, hres⟩ := Prod.mk.inj h
            have hres' := Option.some.inj (Except.ok.inj hres)
            subst htr
            rw [← hres']
            constructor
            · intro _
              exact ⟨rfl, hev⟩
            · intro hnd
              simp only [ne_eq, not_not] at hd
              exact absurd hd hnd

/-- Witness for C8: in the seat-0-wins run the final status is `Win`, the
returned winner is the game's winner of the final state, and the winner
computation appears exactly once in the trace. -/
theorem winner_call_policy_witness :
    (⟨1, GameStatus.Win, 0,
        [[⟨"user", "your move"⟩, ⟨"assistant", "a0"⟩], []]⟩ :
      MPResult Nat).winner =
      seatZeroWinsGame.winner
        (⟨1, GameStatus.Win, 0,
            [[⟨"user", "your move"⟩, ⟨"assistant", "a0"⟩], []]⟩ :
          MPResult Nat).state ∧
    ([MPEvent.prompted 0 "your move", MPEvent.replied 0 ⟨"assistant", "a0"⟩,
        MPEvent.updated 0 "a0",
        MPEvent.winnerCalled]).count MPEvent.winnerCalled = 1 :=
  (winner_call_policy Nat Unit seatZeroWinsGame
    [constModel "a0", constModel "a1"] auxModel () 3 _ _ rfl).2 (by decide)

/-- Counterexample to C7: a multi-participant run of a two-seat game with
only one supplied participant does request a participant reply (seat 0 is
prompted and replies) before the run aborts — and it aborts with a runtime
type error (out-of-range seat access), not with any configuration check
performed before contacting participants. -/
theorem config_error_counterexample :
    multiplayerGameLoop twoSeatGame [constModel "a0"] auxModel () 1 =
      ([MPEvent.prompted 0 "p", MPEvent.replied 0 ⟨"assistant", "a0"⟩,
        MPEvent.updated 0 "a0"], .error RunError.typeError) ∧
    MPEvent.replied 0 ⟨"assistant", "a0"⟩ ∈
      (multiplayerGameLoop twoSeatGame [constModel "a0"] auxModel () 1).1 :=
  ⟨rfl, by decide⟩

/-- **C7 (amended).** The multiplayer loop performs no configuration
validation.  With a seat count of zero no error is raised and no
participant is ever contacted: for every fuel bound the run returns an
empty trace and an exhausted (still-Ongoing) loop.  With fewer
participants than the fixed seat count, in-range seats are contacted
normally and the run then aborts with a runtime type error when the first
out-of-range seat is reached. -/
theorem no_config_validation :
    (∀ (σ ω : Type) (game : MultiplayerGame σ ω)
        (models : List LanguageModel) (aux : LanguageModel) (opts : ω)
        (fuel : Nat),
      game.players = some 0 →
      multiplayerGameLoop game models aux opts fuel = ([], .ok none)) ∧
    multiplayerGameLoop twoSeatGame [constModel "a0"] auxModel () 1 =
      ([MPEvent.prompted 0 "p", MPEvent.replied 0 ⟨"assistant", "a0"⟩,
        MPEvent.updated 0 "a0"], .error RunError.typeError) := by
  constructor
  · intro σ ω game models aux opts fuel h
    have hround : ∀ s : MPLoop σ, mpRound game models aux s = ([], .ok s) := by
      intro s
      unfold mpRound playerCount
      rw [h]
      rfl
    have hloop : ∀ (n : Nat) (s : MPLoop σ),
        s.status = GameStatus.Ongoing →
        mpRunLoop game models aux n s = ([], .ok none) := by
      intro n
      induction n with
      | zero =>
          intro s hs
          simp [mpRunLoop, hs]
      | succ k ih =>
          intro s hs
          simp only [mpRunLoop]
          rw [if_pos hs, hround s]
          dsimp only
          rw [ih s hs]
          rfl
    unfold multiplayerGameLoop
    rw [hloop fuel (mpInit game models opts) rfl]
  · rfl

/-- Witness for C7's amended statement: the zero-seat game run with any
fuel contacts nobody and never terminates (empty trace, fuel exhausted). -/
theorem no_config_validation_witness :
    multiplayerGameLoop zeroSeatGame [] auxModel () 5 = ([], .ok none) :=
  no_config_validation.1 Nat Unit zeroSeatGame [] auxModel () 5 rfl

/-- Counterexample to C4: with a generator whose own evaluator is still
`Ongoing` after its first update (it wins on its second turn) and a solver
whose evaluator is non-Ongoing as soon as one (always-correct) solver
answer is folded in, the adversarial loop ends after 2 generator updates
and only 1 solver update — not the 2 solver turns the claim asserts. -/
theorem adversarial_turn_count_counterexample :
    genTwoTurnGame.evaluateStatus ⟨1, 0⟩ = GameStatus.Ongoing ∧
    genTwoTurnGame.evaluateStatus ⟨2, 0⟩ = GameStatus.Win ∧
    solAlwaysCorrectGame.evaluateStatus ⟨2, 1⟩ = GameStatus.Win ∧
    (adversarialGameLoop genTwoTurnGame solAlwaysCorrectGame
        (constModel "gen") (constModel "sol") () 5).map
      (fun r => (r.state.gen, r.state.sol)) = some (2, 1) ∧
    ¬ (adversarialGameLoop genTwoTurnGame solAlwaysCorrectGame
        (constModel "gen") (constModel "sol") () 5).map
      (fun r => r.state.sol) = some 2 :=
  ⟨rfl, rfl, rfl, rfl, by decide⟩

/-- **C4 (amended).** After the first generator turn, the combined loop's
continuation condition is the solver game's `evaluateStatus` applied to the
shared state (the status stored by every loop iteration is exactly
`solverGame.evaluateStatus` of the new shared state, the loop keeps running
exactly while that status is `Ongoing`, and stops as soon as it is not);
and in the scenario of a generator that wins on its second turn paired
with a solver that always answers correctly, the loop performs exactly 2
generator turns and 1 solver turn (generator chat: 2 exchanges; solver
chat: 1 exchange) before the shared state's status is non-Ongoing from the
solver's evaluator. -/
theorem adversarial_solver_condition_and_counts :
    (∀ (σ ω ω' : Type) (generatorGame : Game σ ω) (solverGame : Game σ ω')
        (generatorModel solverModel : LanguageModel) (s : AdvLoop σ),
      (advStep generatorGame solverGame generatorModel solverModel
          s).generatorStatus =
        solverGame.evaluateStatus
          (advStep generatorGame solverGame generatorModel solverModel
            s).state) ∧
    (∀ (σ ω ω' : Type) (generatorGame : Game σ ω) (solverGame : Game σ ω')
        (generatorModel solverModel : LanguageModel) (n : Nat)
        (s : AdvLoop σ),
      s.generatorStatus = GameStatus.Ongoing →
      advRun generatorGame solverGame generatorModel solverModel (n + 1) s =
        advRun generatorGame solverGame generatorModel solverModel n
          (advStep generatorGame solverGame generatorModel solverModel s)) ∧
    (∀ (σ ω ω' : Type) (generatorGame : Game σ ω) (solverGame : Game σ ω')
        (generatorModel solverModel : LanguageModel) (n : Nat)
        (s : AdvLoop σ),
      s.generatorStatus ≠ GameStatus.Ongoing →
      advRun generatorGame solverGame generatorModel solverModel n s =
        some s) ∧
    (adversarialGameLoop genTwoTurnGame solAlwaysCorrectGame
        (constModel "gen") (constModel "sol") () 5).map
      (fun r =>
        (r.state.gen, r.state.sol, r.genChat.length, r.solChat.length)) =
      some (2, 1, 4, 2) := by
  refine ⟨?_, ?_, ?_, rfl⟩
  · intro σ ω ω' generatorGame solverGame generatorModel solverModel s
    rfl
  · intro σ ω ω' generatorGame solverGame generatorModel solverModel n s hs
    rw [advRun, if_pos hs]
  · intro σ ω ω' generatorGame solverGame generatorModel solverModel n s hs
    cases n with
    | zero => rw [advRun, if_neg hs]
    | succ k => rw [advRun, if_neg hs]

/-- Witness for C4's amended statement: the loop-step equation at the
concrete scenario's post-initialization state (whose generator status is
still `Ongoing`). -/
theorem adversarial_solver_condition_and_counts_witness :
    advRun genTwoTurnGame solAlwaysCorrectGame (constModel "gen")
        (constModel "sol") 1
        (advInit genTwoTurnGame (constModel "gen") ()) =
      advRun genTwoTurnGame solAlwaysCorrectGame (constModel "gen")
        (constModel "sol") 0
        (advStep genTwoTurnGame solAlwaysCorrectGame (constModel "gen")
          (constModel "sol") (advInit genTwoTurnGame (constModel "gen") ())) :=
  adversarial_solver_condition_and_counts.2.1 GenSolState Unit Unit
    genTwoTurnGame solAlwaysCorrectGame (constModel "gen") (constModel "sol")
    0 (advInit genTwoTurnGame (constModel "gen") ()) rfl

/-- A seat step that returns without acting leaves the loop state
unchanged (the only such branch is the skip branch). -/
lemma mpSeatStep_ok_false {σ ω : Type} {game : MultiplayerGame σ ω}
    {models : List LanguageModel} {aux : LanguageModel} {player : Nat}
    {s s' : MPLoop σ}
    (hstep : (mpSeatStep game models aux player s).2 = .ok (false, s')) :
    s' = s := by
  by_cases hskip : (match game.shouldSkip with
      | some f => f s.state player
      | none => false) = true
  · rw [mpSeatStep_skip hskip] at hstep
    simp only [Except.ok.injEq, Prod.mk.injEq, true_and] at hstep
    exact hstep.symm
  · rw [Bool.not_eq_true] at hskip
    cases hchat : s.chats.get? player with
    | none =>
        simp only [mpSeatStep, hskip, Bool.false_eq_true, if_false, hchat]
          at hstep
        cases hstep
    | some chat =>
        cases hmodel : models.get? player with
        | none =>
            simp only [mpSeatStep, hskip, Bool.false_eq_true, if_false,
              hchat, hmodel] at hstep
            cases hstep
        | some model =>
            simp only [mpSeatStep, hskip, Bool.false_eq_true, if_false,
              hchat, hmodel, Except.ok.injEq, Prod.mk.injEq] at hstep
            exact absurd hstep.1 (by simp)

/-- One seat step only ever appends to the acting seat's own conversation
and leaves every other seat's conversation untouched. -/
lemma mpSeatStep_chats_extend {σ ω : Type} {game : MultiplayerGame σ ω}
    {models : List LanguageModel} {aux : LanguageModel} {player : Nat}
    {s : MPLoop σ} {acted : Bool} {s1 : MPLoop σ}
    (hstep : (mpSeatStep game models aux player s).2 = .ok (acted, s1)) :
    ∀ j c, s.chats.get? j = some c → ∃ t, s1.chats.get? j = some (c ++ t) := by
  cases acted with
  | false =>
      have h := mpSeatStep_ok_false hstep
      subst h
      intro j c hc
      exact ⟨[], by rw [hc, List.append_nil]⟩
  | true =>
      obtain ⟨chat, model, prompt, response, parsed, hchat, hmodel, -, -, -,
        -, hchats, -, -⟩ := mpSeatStep_ok_true hstep
      intro j c hc
      by_cases hj : j = player
      · subst hj
        rw [hchat] at hc
        obtain rfl := Option.some.inj hc
        obtain ⟨hlt, -⟩ := List.get?_eq_some.mp hchat
        refine ⟨[(⟨"user", prompt⟩ : ChatMessage), response], ?_⟩
        rw [hchats, List.get?_set_eq_of_lt _ hlt, List.append_assoc]
        rfl
      · rw [hchats, List.get?_set_ne _ _ fun h => hj h.symm]
        exact ⟨[], by rw [hc, List.append_nil]⟩

/-- The inner seat loop only ever appends to the seats' conversations. -/
lemma mpSeats_chats_extend {σ ω : Type} (game : MultiplayerGame σ ω)
    (models : List LanguageModel) (aux : LanguageModel) :
    ∀ (r player : Nat) (s s' : MPLoop σ),
      (mpSeats game models aux r player s).2 = .ok s' →
      ∀ j c, s.chats.get? j = some c →
        ∃ t, s'.chats.get? j = some (c ++ t) := by
  intro r
  induction r with
  | zero =>
      intro player s s' h j c hc
      simp only [mpSeats, Except.ok.injEq] at h
      subst h
      exact ⟨[], by rw [hc, List.append_nil]⟩
  | succ n ih =>
      intro player s s' h j c hc
      rw [mpSeats] at h
      rcases hstep : mpSeatStep game models aux player s with ⟨ev, res⟩
      rw [hstep] at h
      cases res with
      | error e => cases h
      | ok p =>
          rcases p with ⟨acted, s1⟩
          dsimp only at h
          have hone := mpSeatStep_chats_extend
            (show (mpSeatStep game models aux player s).2 = .ok (acted, s1) by
              rw [hstep])
          by_cases hb : acted = true ∧ s1.status ≠ GameStatus.Ongoing
          · rw [if_pos hb] at h
            simp only [Except.ok.injEq] at h
            subst h
            exact hone j c hc
          · rw [if_neg hb] at h
            dsimp only at h
            obtain ⟨t1, ht1⟩ := hone j c hc
            obtain ⟨t2, ht2⟩ := ih (player + 1) s1 s' h j (c ++ t1) ht1
            exact ⟨t1 ++ t2, by rw [ht2, List.append_assoc]⟩

/-- The outer multiplayer loop only ever appends to the seats'
conversations. -/
lemma mpRunLoop_chats_extend {σ ω : Type} (game : MultiplayerGame σ ω)
    (models : List LanguageModel) (aux : LanguageModel) :
    ∀ (fuel : Nat) (s r : MPLoop σ),
      (mpRunLoop game models aux fuel s).2 = .ok (some r) →
      ∀ j c, s.chats.get? j = some c →
        ∃ t, r.chats.get? j = some (c ++ t) := by
  intro fuel
  induction fuel with
  | zero =>
      intro s r h j c hc
      simp only [mpRunLoop] at h
      by_cases hs : s.status = GameStatus.Ongoing
      · rw [if_pos hs] at h
        cases h
      · rw [if_neg hs] at h
        simp only [Except.ok.injEq, Option.some.injEq] at h
        subst h
        exact ⟨[], by rw [hc, List.append_nil]⟩
  | succ n ih =>
      intro s r h j c hc
      rw [mpRunLoop] at h
      by_cases hs : s.status = GameStatus.Ongoing
      · rw [if_pos hs] at h
        rcases hround : mpRound game models aux s with ⟨ev, res⟩
        rw [hround] at h
        cases res with
        | error e => cases h
        | ok s1 =>
            dsimp only at h
            obtain ⟨t1, ht1⟩ := mpSeats_chats_extend game models aux
              (playerCount game models) 0 s s1
              (by rw [mpRound] at hround; rw [hround]) j c hc
            obtain ⟨t2, ht2⟩ := ih s1 r h j (c ++ t1) ht1
            exact ⟨t1 ++ t2, by rw [ht2, List.append_assoc]⟩
      · rw [if_neg hs] at h
        simp only [Except.ok.injEq, Option.some.injEq] at h
        subst h
        exact ⟨[], by rw [hc, List.append_nil]⟩

/-- One single-participant turn appends exactly the new user prompt and the
reply to the conversation. -/
lemma spTurn_chat_extend {σ ω : Type} (game : Game σ ω)
    (model aux : LanguageModel) (s : SPLoop σ) :
    (spTurn game model aux s).1.chat =
      s.chat ++ [(⟨"user", game.promptsTurn.resolve s.state⟩ : ChatMessage),
        model.complete (s.chat ++
          [(⟨"user", game.promptsTurn.resolve s.state⟩ : ChatMessage)])] := by
  simp [spTurn]

/-- The single-participant loop only ever appends to the conversation. -/
lemma spRun_chat_extend {σ ω : Type} (game : Game σ ω)
    (model aux : LanguageModel) :
    ∀ (n : Nat) (s r : SPLoop σ), spRun game model aux n s = some r →
      ∃ t, r.chat = s.chat ++ t := by
  intro n
  induction n with
  | zero =>
      intro s r h
      simp only [spRun] at h
      by_cases hs : s.status = GameStatus.Ongoing
      · rw [if_pos hs] at h
        cases h
      · rw [if_neg hs] at h
        obtain rfl := Option.some.inj h
        exact ⟨[], by rw [List.append_nil]⟩
  | succ n ih =>
      intro s r h
      rw [spRun] at h
      by_cases hs : s.status = GameStatus.Ongoing
      · rw [if_pos hs] at h
        obtain ⟨t1, ht1⟩ := ih (spTurn game model aux s).1 r h
        rw [spTurn_chat_extend game model aux s, List.append_assoc] at ht1
        exact ⟨_, ht1⟩
      · rw [if_neg hs] at h
        obtain rfl := Option.some.inj h
        exact ⟨[], by rw [List.append_nil]⟩

/-- **C9.** Conversations are append-only in every mode: a single-player
turn appends to the chat without touching earlier messages, a whole
single-player run's final chat is the initial chat plus a suffix, one
multiplayer seat step leaves every other seat's conversation identical and
only appends to the acting seat's own conversation, and across a whole
multiplayer run every seat's conversation is its initial value plus a
suffix (so no message is ever removed, reordered or rewritten). -/
theorem conversations_append_only :
    (∀ (σ ω : Type) (game : Game σ ω) (model aux : LanguageModel)
        (s : SPLoop σ),
      ∃ t, (spTurn game model aux s).1.chat = s.chat ++ t) ∧
    (∀ (σ ω : Type) (game : Game σ ω) (model aux : LanguageModel) (n : Nat)
        (s r : SPLoop σ), spRun game model aux n s = some r →
      ∃ t, r.chat = s.chat ++ t) ∧
    (∀ (σ ω : Type) (game : MultiplayerGame σ ω)
        (models : List LanguageModel) (aux : LanguageModel) (player : Nat)
        (s : MPLoop σ) (acted : Bool) (s1 : MPLoop σ),
      (mpSeatStep game models aux player s).2 = .ok (acted, s1) →
      (∀ j, j ≠ player → s1.chats.get? j = s.chats.get? j) ∧
      (∀ c, s.chats.get? player = some c →
        ∃ t, s1.chats.get? player = some (c ++ t))) ∧
    (∀ (σ ω : Type) (game : MultiplayerGame σ ω)
        (models : List LanguageModel) (aux : LanguageModel) (fuel : Nat)
        (s r : MPLoop σ),
      (mpRunLoop game models aux fuel s).2 = .ok (some r) →
      ∀ j c, s.chats.get? j = some c →
        ∃ t, r.chats.get? j = some (c ++ t)) := by
  refine ⟨?_, ?_, ?_, ?_⟩
  · intro σ ω game model aux s
    exact ⟨_, spTurn_chat_extend game model aux s⟩
  · intro σ ω game model aux n s r h
    exact spRun_chat_extend game model aux n s r h
  · intro σ ω game models aux player s acted s1 hstep
    constructor
    · intro j hj
      cases acted with
      | false =>
          have h := mpSeatStep_ok_false hstep
          rw [h]
      | true =>
          obtain ⟨chat, model, prompt, response, parsed, hchat, hmodel, -, -,
            -, -, hchats, -, -⟩ := mpSeatStep_ok_true hstep
          rw [hchats, List.get?_set_ne _ _ fun h => hj h.symm]
    · intro c hc
      exact mpSeatStep_chats_extend hstep player c hc
  · intro σ ω game models aux fuel s r h
    exact mpRunLoop_chats_extend game models aux fuel s r h

/-- Witness for C9: the final chat of a concrete one-turn single-player run
extends its (empty) initial chat. -/
theorem conversations_append_only_witness :
    ∃ t, (⟨[(⟨"user", "t"⟩ : ChatMessage), ⟨"assistant", "a"⟩], 1,
        GameStatus.Win⟩ : SPLoop Nat).chat = [] ++ t :=
  conversations_append_only.2.1 Nat Unit singleQuickGame (constModel "a")
    auxModel 1 ⟨[], 0, GameStatus.Ongoing⟩ _ rfl

/-- If the single-participant statuses reach a non-Ongoing value within `N`
guarded steps, then fuel `N` suffices: the loop returns the `N`-step
iterate, whose status is non-Ongoing. -/
lemma spRun_of_reaches {σ ω : Type} (game : Game σ ω)
    (model aux : LanguageModel) :
    ∀ (N : Nat) (s : SPLoop σ),
      (∃ k, k ≤ N ∧
        ((spStep game model aux)^[k] s).status ≠ GameStatus.Ongoing) →
      spRun game model aux N s =
        some ((spStep game model aux)^[N] s) ∧
      ((spStep game model aux)^[N] s).status ≠ GameStatus.Ongoing := by
  intro N
  induction N with
  | zero =>
      rintro s ⟨k, hk, hne⟩
      obtain rfl : k = 0 := Nat.le_zero.mp hk
      simp only [Function.iterate_zero, id] at hne ⊢
      exact ⟨by simp [spRun, hne], hne⟩
  | succ n ih =>
      rintro s ⟨k, hk, hne⟩
      by_cases hs : s.status = GameStatus.Ongoing
      · have hstep : spStep game model aux s = (spTurn game model aux s).1 := by
          simp [spStep, hs]
        have hk' : ∃ k', k' ≤ n ∧
            ((spStep game model aux)^[k']
              (spStep game model aux s)).status ≠ GameStatus.Ongoing := by
          cases k with
          | zero =>
              simp only [Function.iterate_zero, id] at hne
              exact absurd hs hne
          | succ j =>
              refine ⟨j, Nat.le_of_succ_le_succ hk, ?_⟩
              rw [← Function.iterate_succ_apply]
              exact hne
        obtain ⟨h1, h2⟩ := ih (spStep game model aux s) hk'
        refine ⟨?_, ?_⟩
        · rw [spRun, if_pos hs, ← hstep, h1, Function.iterate_succ_apply]
        · rw [Function.iterate_succ_apply]
          exact h2
      · have hfix : ∀ m, (spStep game model aux)^[m] s = s := fun m =>
          Function.iterate_fixed (by simp [spStep, hs]) m
        refine ⟨?_, ?_⟩
        · rw [spRun, if_neg hs, hfix (n + 1)]
        · rw [hfix (n + 1)]
          exact hs

/-- A non-Ongoing loop state is a fixed point of the guarded round
iterates. -/
lemma mpIter_fixed {σ ω : Type} (game : MultiplayerGame σ ω)
    (models : List LanguageModel) (aux : LanguageModel) :
    ∀ (n : Nat) (s : MPLoop σ), s.status ≠ GameStatus.Ongoing →
      mpIter game models aux n s = .ok s := by
  intro n
  induction n with
  | zero => intro s _; rfl
  | succ k ih =>
      intro s hs
      rw [mpIter]
      have : mpStep game models aux s = .ok s := by
        rw [mpStep, if_neg hs]
      rw [this]
      exact ih s hs

/-- If the multiplayer guarded-round iterates reach a non-Ongoing state
within `N` rounds (without erroring), then fuel `N` suffices: the outer
loop returns that state. -/
lemma mpRunLoop_of_reaches {σ ω : Type} (game : MultiplayerGame σ ω)
    (models : List LanguageModel) (aux : LanguageModel) :
    ∀ (N : Nat) (s : MPLoop σ),
      (∃ k t, k ≤ N ∧ mpIter game models aux k s = .ok t ∧
        t.status ≠ GameStatus.Ongoing) →
      ∃ t, (mpRunLoop game models aux N s).2 = .ok (some t) ∧
        t.status ≠ GameStatus.Ongoing ∧
        mpIter game models aux N s = .ok t := by
  intro N
  induction N with
  | zero =>
      rintro s ⟨k, t, hk, hit, hne⟩
      obtain rfl : k = 0 := Nat.le_zero.mp hk
      obtain rfl : s = t := Except.ok.inj hit
      refine ⟨s, ?_, hne, rfl⟩
      simp [mpRunLoop, if_neg hne]
  | succ n ih =>
      rintro s ⟨k, t, hk, hit, hne⟩
      by_cases hs : s.status = GameStatus.Ongoing
      · have hstepeq : mpStep game models aux s = (mpRound game models aux s).2 := by
          rw [mpStep, if_pos hs]
        rcases hround : mpRound game models aux s with ⟨ev, res⟩
        cases res with
        | error e =>
            exfalso
            cases k with
            | zero =>
                obtain rfl : s = t := Except.ok.inj hit
                exact hne hs
            | succ j =>
                rw [mpIter, hstepeq, hround] at hit
                cases hit
        | ok s1 =>
            have hiter1 : ∀ m, mpIter game models aux (m + 1) s =
                mpIter game models aux m s1 := by
              intro m
              rw [mpIter, hstepeq, hround]
            have hk' : ∃ k' t', k' ≤ n ∧
                mpIter game models aux k' s1 = .ok t' ∧
                t'.status ≠ GameStatus.Ongoing := by
              cases k with
              | zero =>
                  obtain rfl : s = t := Except.ok.inj hit
                  exact absurd hs hne
              | succ j =>
                  rw [hiter1 j] at hit
                  exact ⟨j, t, Nat.le_of_succ_le_succ hk, hit, hne⟩
            obtain ⟨t', h1, h2, h3⟩ := ih s1 hk'
            refine ⟨t', ?_, h2, ?_⟩
            · rw [mpRunLoop, if_pos hs, hround]
              dsimp only
              exact h1
            · rw [hiter1 n]
              exact h3
      · refine ⟨s, ?_, hs, mpIter_fixed game models aux (n + 1) s hs⟩
        rw [mpRunLoop, if_neg hs]

/-- **C1.** Both loops terminate exactly when the game's status evaluator
leaves `Ongoing`, with no engine-imposed turn cap: if the single-player
statuses reach a non-Ongoing value within `N` guarded turns then `gameLoop`
run with fuel `N` returns a final non-Ongoing status; for any fuel, the
single-player loop returns immediately at a non-Ongoing state and takes
exactly one more turn at an Ongoing state; and the analogous three facts
hold for the multiplayer loop (round iterates reaching non-Ongoing within
`N` rounds make `multiplayerGameLoop` return a final non-Ongoing result;
the outer loop stops exactly at non-Ongoing states and otherwise runs one
more round). -/
theorem loop_termination :
    (∀ (σ ω : Type) (game : Game σ ω) (model aux : LanguageModel) (opts : ω)
        (N : Nat),
      (∃ k, k ≤ N ∧
        ((spStep game model aux)^[k]
          (spInit game model aux opts).1).status ≠ GameStatus.Ongoing) →
      ∃ st stat, gameLoop game model aux opts N = some (st, stat) ∧
        stat ≠ GameStatus.Ongoing) ∧
    (∀ (σ ω : Type) (game : Game σ ω) (model aux : LanguageModel) (n : Nat)
        (s : SPLoop σ), s.status ≠ GameStatus.Ongoing →
      spRun game model aux n s = some s) ∧
    (∀ (σ ω : Type) (game : Game σ ω) (model aux : LanguageModel) (n : Nat)
        (s : SPLoop σ), s.status = GameStatus.Ongoing →
      spRun game model aux (n + 1) s =
        spRun game model aux n (spTurn game model aux s).1) ∧
    (∀ (σ ω : Type) (game : MultiplayerGame σ ω)
        (models : List LanguageModel) (aux : LanguageModel) (opts : ω)
        (N : Nat),
      (∃ k t, k ≤ N ∧
        mpIter game models aux k (mpInit game models opts) = .ok t ∧
        t.status ≠ GameStatus.Ongoing) →
      ∃ tr res, multiplayerGameLoop game models aux opts N =
          (tr, .ok (some res)) ∧ res.status ≠ GameStatus.Ongoing) ∧
    (∀ (σ ω : Type) (game : MultiplayerGame σ ω)
        (models : List LanguageModel) (aux : LanguageModel) (n : Nat)
        (s : MPLoop σ), s.status ≠ GameStatus.Ongoing →
      mpRunLoop game models aux n s = ([], .ok (some s))) ∧
    (∀ (σ ω : Type) (game : MultiplayerGame σ ω)
        (models : List LanguageModel) (aux : LanguageModel) (n : Nat)
        (s s1 : MPLoop σ) (ev : List MPEvent),
      s.status = GameStatus.Ongoing →
      mpRound game models aux s = (ev, .ok s1) →
      (mpRunLoop game models aux (n + 1) s).2 =
        (mpRunLoop game models aux n s1).2) := by
  refine ⟨?_, ?_, ?_, ?_, ?_, ?_⟩
  · intro σ ω game model aux opts N h
    obtain ⟨h1, h2⟩ := spRun_of_reaches game model aux N
      (spInit game model aux opts).1 h
    exact ⟨_, _, by rw [gameLoop, h1]; rfl, h2⟩
  · intro σ ω game model aux n s hs
    cases n with
    | zero => rw [spRun, if_neg hs]
    | succ k => rw [spRun, if_neg hs]
  · intro σ ω game model aux n s hs
    rw [spRun, if_pos hs]
  · intro σ ω game models aux opts N h
    obtain ⟨t, h1, h2, -⟩ := mpRunLoop_of_reaches game models aux N
      (mpInit game models opts) h
    rcases hl : mpRunLoop game models aux N (mpInit game models opts)
      with ⟨ev, res⟩
    rw [hl] at h1
    dsimp only at h1
    subst h1
    by_cases hd : t.status ≠ GameStatus.Draw
    · refine ⟨ev ++ [MPEvent.winnerCalled],
        ⟨t.state, t.status, game.winner t.state, t.chats⟩, ?_, h2⟩
      rw [multiplayerGameLoop, hl]
      dsimp only
      rw [if_pos hd]
    · refine ⟨ev, ⟨t.state, t.status, -1, t.chats⟩, ?_, h2⟩
      rw [multiplayerGameLoop, hl]
      dsimp only
      rw [if_neg hd]
  · intro σ ω game models aux n s hs
    cases n with
    | zero => rw [mpRunLoop]; rw [if_neg hs]
    | succ k => rw [mpRunLoop, if_neg hs]
  · intro σ ω game models aux n s s1 ev hs hround
    rw [mpRunLoop, if_pos hs, hround]

/-- Witness for C1: the quick single-player game's status is non-Ongoing
already at the zeroth guarded iterate after initialization, so `gameLoop`
with fuel 1 returns a non-Ongoing result. -/
theorem loop_termination_witness :
    ∃ st stat,
      gameLoop singleQuickGame (constModel "a") auxModel () 1 =
        some (st, stat) ∧ stat ≠ GameStatus.Ongoing :=
  loop_termination.1 Nat Unit singleQuickGame (constModel "a") auxModel () 1
    ⟨0, Nat.zero_le 1, by decide⟩

end Gallerbench
